import Mathlib

/-!
Verification development for the Lead-Finder reconciliation and prioritization
pipeline.  The Python sources under `utils/scoring.py`, `utils/data_processing.py`,
`stages/stage3_ranking.py` and `stages/cache_manager.py` are shallowly embedded
below: records (string-keyed dicts with optional fields) become a structure of
string fields where the empty string stands for an absent value, exactly as in
the source (`lead.get(k, '')` and Python truthiness agree on this encoding).
Machine-level concerns that the claims do not touch (unicode case folding beyond
ASCII, the exact unicode whitespace set) are noted at the definitions involved.
-/

namespace LeadFinder

/-! ### Python string primitives

Helpers modelling the Python string operations the source uses: substring
containment (`kw in s`), lexicographic comparison (`s2 > s1` on `str`), and
`int()` parsing of a slice.  All are executable and kernel-reducible. -/

/-- Tests whether `needle` is a prefix of `hay`, on character lists. -/
def startsWithChars : List Char → List Char → Bool
  | [], _ => true
  | _ :: _, [] => false
  | a :: as, b :: bs => a == b && startsWithChars as bs

/-- Tests whether `needle` occurs contiguously inside `hay`, on character
lists: models the Python expression `needle in hay` for strings. -/
def hasSubChars (needle : List Char) : List Char → Bool
  | [] => startsWithChars needle []
  | c :: rest => startsWithChars needle (c :: rest) || hasSubChars needle rest

/-- Models Python `needle in hay` for strings. -/
def strContains (hay needle : String) : Bool :=
  hasSubChars needle.data hay.data

/-- Lexicographic strict order on character lists by code point, as Python
compares `str` values. -/
def lexLtChars : List Char → List Char → Bool
  | [], [] => false
  | [], _ :: _ => true
  | _ :: _, [] => false
  | a :: as, b :: bs =>
      if a.toNat < b.toNat then true
      else if b.toNat < a.toNat then false
      else lexLtChars as bs

/-- Models Python `a < b` on strings (code-point lexicographic order). -/
def pyStrLt (a b : String) : Bool := lexLtChars a.data b.data

/-- Models Python `s.lower()` (ASCII case folding; the keywords and the
values the claims exercise are ASCII). -/
def pyLower (s : String) : String := String.mk (s.data.map Char.toLower)

/-- Drops leading and trailing whitespace from a character list. -/
def stripChars (l : List Char) : List Char :=
  ((l.dropWhile Char.isWhitespace).reverse.dropWhile Char.isWhitespace).reverse

/-- Models Python `s.strip()` (whitespace per `Char.isWhitespace`). -/
def pyStrip (s : String) : String := String.mk (stripChars s.data)

/-- Splits a character list on a separator character, keeping empty pieces,
as Python `s.split(sep)` does for a one-character separator. -/
def splitOnChar (sep : Char) (l : List Char) : List (List Char) :=
  l.foldr
    (fun c acc =>
      match acc with
      | [] => [[]]
      | cur :: rest => if c = sep then [] :: cur :: rest else (c :: cur) :: rest)
    [[]]

/-- Models Python `s.split(',')`. -/
def pySplitComma (s : String) : List String :=
  (splitOnChar ',' s.data).map String.mk

/-- Digit value accumulator for decimal parsing. -/
def digitsToNat (l : List Char) : Nat :=
  l.foldl (fun acc c => acc * 10 + (c.toNat - 48)) 0

/-- Validity of the digit body of a Python integer literal: nonempty, every
character a digit or an underscore, underscores only between digits (Python 3
`int()` accepts `"1_23"` but rejects leading, trailing or doubled
underscores).  Non-ASCII unicode digits are not modelled. -/
def pyDigitsValid : List Char → Bool
  | [] => false
  | l =>
      l.all (fun c => c.isDigit || c == '_') &&
      !(l.head? == some '_') &&
      !(l.getLast? == some '_') &&
      !(hasSubChars ['_', '_'] l)

/-- Models Python `int(s)`: strips surrounding whitespace, accepts an optional
sign, then a digit body (underscore separators allowed).  Returns `none` where
Python raises `ValueError`. -/
def pyIntOpt (s : String) : Option Int :=
  let t := stripChars s.data
  match t with
  | '-' :: rest => if pyDigitsValid rest then some (-(digitsToNat (rest.filter Char.isDigit) : Int)) else none
  | '+' :: rest => if pyDigitsValid rest then some ((digitsToNat (rest.filter Char.isDigit) : Int)) else none
  | l => if pyDigitsValid l then some ((digitsToNat (l.filter Char.isDigit) : Int)) else none

/-! ### The record type

A lead is an open string-keyed dict in the source; every field the embedded
functions touch is listed here, with `""` standing for both "missing key" and
"empty value" — the source always reads fields as `lead.get(k, '')` and tests
them by truthiness, so the two are indistinguishable there. -/

/-- A lead record.  Fields default to `""` (absent). -/
structure Lead where
  name : String := ""
  company : String := ""
  location : String := ""
  email : String := ""
  author_position : String := ""
  publication_title : String := ""
  publication_journal : String := ""
  publication_date : String := ""
  pubmed_id : String := ""
  title : String := ""
  linkedin_title : String := ""
  company_funding_stage : String := ""
  company_industry : String := ""
  person_location : String := ""
  company_hq : String := ""
deriving DecidableEq, Repr

/-! ### Scoring engine (`utils/scoring.py`) -/

/-- Role keyword list from `_calculate_role_fit_score`. -/
def roleKeywords : List String :=
  ["toxicology", "safety", "hepatic", "3d", "preclinical",
   "pre-clinical", "drug safety", "safety assessment",
   "preclinical safety", "toxicologist", "safety scientist"]

/-- Embeds `_calculate_role_fit_score`: the title (a LinkedIn title preferred
over the record's own title) is lower-cased and scanned for any role keyword;
a hit scores 30, otherwise 0. -/
def calculateRoleFitScore (lead : Lead) : Nat :=
  let t := if lead.linkedin_title ≠ "" then lead.linkedin_title
           else if lead.title ≠ "" then lead.title
           else ""
  if t = "" then 0
  else if roleKeywords.any (fun k => strContains (pyLower t) k) then 30
  else 0

/-- Scientific keyword list from `_calculate_scientific_intent_score`. -/
def scientificKeywords : List String :=
  ["dili", "drug-induced liver injury", "liver toxicity",
   "hepatic", "liver injury", "drug-induced",
   "hepatotoxicity", "liver damage"]

/-- Embeds `_calculate_scientific_intent_score`.  The Python body checks the
publication title for a scientific keyword and then enters a recency check,
but no branch of that check ever returns 0: when the leading four characters
parse as a year and `current_year - year <= 2` fails, control falls through
the `if` inside the `try` block and reaches the trailing `return 40`.  The
collapsed `if _ then 40 else 40` below mirrors that fall-through exactly
(first branch: the early `return 40`; second branch: the trailing one). -/
def calculateScientificIntentScore (currentYear : Int) (lead : Lead) : Nat :=
  let pubTitle := lead.publication_title
  let pubDate := lead.publication_date
  if pubTitle = "" then 0
  else if ! scientificKeywords.any (fun k => strContains (pyLower pubTitle) k) then 0
  else if pubDate ≠ "" then
    if pubDate.length ≥ 4 then
      match pyIntOpt (String.mk (pubDate.data.take 4)) with
      | some year => if currentYear - year ≤ 2 then 40 else 40
      | none => 40
    else 40
  else 40

/-- Embeds `_calculate_company_intent_score`: Series A/B funding scores 20,
Series C or IPO scores 15, anything else 0. -/
def calculateCompanyIntentScore (lead : Lead) : Nat :=
  let fs := lead.company_funding_stage
  if fs = "" then 0
  else
    let fsl := pyLower fs
    if strContains fsl "series a" || strContains fsl "series b" then 20
    else if strContains fsl "series c" || strContains fsl "ipo" then 15
    else 0

/-- Technology keyword list from `_calculate_technographic_score`. -/
def techKeywords : List String :=
  ["3d", "in-vitro", "in vitro", "organ-on-chip", "organ on chip",
   "spheroid", "cell culture", "nam", "new approach methodology",
   "organoid", "microphysiological", "mps"]

/-- Embeds `_calculate_technographic_score`: any technology keyword in the
company industry or the publication title scores 15. -/
def calculateTechnographicScore (lead : Lead) : Nat :=
  let industry := pyLower lead.company_industry
  let pubTitle := pyLower lead.publication_title
  if techKeywords.any (fun k => strContains industry k || strContains pubTitle k) then 15
  else 0

/-- Hub-city alias table from `_calculate_location_score`. -/
def hubCities : List (String × List String) :=
  [("boston/cambridge", ["boston", "cambridge", "cambridge, ma", "boston, ma"]),
   ("bay area",
    ["san francisco", "palo alto", "south san francisco",
     "fremont", "bay area", "menlo park", "san jose",
     "mountain view", "redwood city"]),
   ("basel", ["basel", "switzerland"]),
   ("uk golden triangle",
    ["london", "oxford", "cambridge", "cambridgeshire",
     "london, uk", "oxford, uk", "cambridge, uk"])]

/-- Embeds `_calculate_location_score`: the person location (falling back to
the company HQ) is matched against any alias of any hub; a hit scores 10. -/
def calculateLocationScore (lead : Lead) : Nat :=
  let loc := if lead.person_location ≠ "" then lead.person_location
             else if lead.company_hq ≠ "" then lead.company_hq
             else ""
  if loc = "" then 0
  else
    let locLower := pyLower loc
    if hubCities.any (fun hub => hub.2.any (fun city => strContains locLower city)) then 10
    else 0

/-- The five-way score breakdown of `calculate_propensity_score`. -/
structure ScoreBreakdown where
  role_fit : Nat
  scientific_intent : Nat
  company_intent : Nat
  technographic : Nat
  location : Nat
deriving DecidableEq, Repr

/-- Result triple of `calculate_propensity_score`. -/
structure ScoreResult where
  propensity_score : Nat
  score_breakdown : ScoreBreakdown
  priority_level : String
deriving DecidableEq, Repr

/-- Embeds `calculate_propensity_score`: evaluates the five rules, sums the
breakdown, caps the total at 100 and classifies the tier.  The wall-clock
`datetime.now().year` read inside the scientific-intent rule is passed in as
`currentYear`. -/
def calculatePropensityScore (currentYear : Int) (lead : Lead) : ScoreResult :=
  let breakdown : ScoreBreakdown :=
    { role_fit := calculateRoleFitScore lead
      scientific_intent := calculateScientificIntentScore currentYear lead
      company_intent := calculateCompanyIntentScore lead
      technographic := calculateTechnographicScore lead
      location := calculateLocationScore lead }
  let totalScore := breakdown.role_fit + breakdown.scientific_intent +
      breakdown.company_intent + breakdown.technographic + breakdown.location
  let propensity := min totalScore 100
  { propensity_score := propensity
    score_breakdown := breakdown
    priority_level :=
      if propensity ≥ 80 then "High"
      else if propensity ≥ 50 then "Medium"
      else "Low" }

/-! ### Fuzzy deduplication and merge (`utils/data_processing.py`)

The similarity scores come from the third-party `fuzzywuzzy` library
(`fuzz.ratio`, `fuzz.token_set_ratio`), which is not part of this repository;
the functions below are therefore parameterized by the two similarity
functions (each `String → String → Nat` on a 0–100 scale), and every theorem
holds for arbitrary instantiations. -/

/-- Author-position priority table from `_merge_lead_data`
(`Corresponding Author` 4 > `First Author` 3 > `Last Author` 2 >
`Co-Author` 1, anything else 0). -/
def authorPositionValue (pos : String) : Nat :=
  if pos = "Corresponding Author" then 4
  else if pos = "First Author" then 3
  else if pos = "Last Author" then 2
  else if pos = "Co-Author" then 1
  else 0

/-- Embeds `_merge_lead_data lead1 lead2`: merges `lead2` into a copy of
`lead1` field by field.  Titles, journals and PubMed ids concatenate with
`"; "` when both present and different (the source builds a two-element list
and joins it, which for two distinct values is exactly the concatenation);
email likewise; location fills only when empty; company is replaced only when
the seed holds the literal `"Unknown"`; the author position with the higher
priority wins; the lexicographically larger non-empty date wins. -/
def mergeLeadData (lead1 lead2 : Lead) : Lead :=
  let pub1 := lead1.publication_title
  let pub2 := lead2.publication_title
  let mergedPub :=
    if pub1 ≠ "" ∧ pub2 ≠ "" ∧ pub1 ≠ pub2 then pub1 ++ "; " ++ pub2
    else if pub1 = "" ∧ pub2 ≠ "" then pub2
    else pub1
  let email1 := lead1.email
  let email2 := lead2.email
  let mergedEmail :=
    if email1 = "" ∧ email2 ≠ "" then email2
    else if email1 ≠ "" ∧ email2 ≠ "" ∧ email1 ≠ email2 then email1 ++ "; " ++ email2
    else email1
  let mergedLocation :=
    if lead1.location = "" ∧ lead2.location ≠ "" then lead2.location
    else lead1.location
  let mergedCompany :=
    if lead1.company = "Unknown" ∧ lead2.company ≠ "" ∧ lead2.company ≠ "Unknown" then
      lead2.company
    else lead1.company
  let mergedPos :=
    if authorPositionValue lead1.author_position < authorPositionValue lead2.author_position then
      lead2.author_position
    else lead1.author_position
  let pmid1 := lead1.pubmed_id
  let pmid2 := lead2.pubmed_id
  let mergedPmid :=
    if pmid1 ≠ "" ∧ pmid2 ≠ "" ∧ pmid1 ≠ pmid2 then pmid1 ++ "; " ++ pmid2
    else if pmid1 = "" ∧ pmid2 ≠ "" then pmid2
    else pmid1
  let journal1 := lead1.publication_journal
  let journal2 := lead2.publication_journal
  let mergedJournal :=
    if journal1 ≠ "" ∧ journal2 ≠ "" ∧ journal1 ≠ journal2 then journal1 ++ "; " ++ journal2
    else if journal1 = "" ∧ journal2 ≠ "" then journal2
    else journal1
  let date1 := lead1.publication_date
  let date2 := lead2.publication_date
  let mergedDate :=
    if date2 ≠ "" ∧ (date1 = "" ∨ pyStrLt date1 date2) then date2
    else date1
  { lead1 with
      publication_title := mergedPub
      email := mergedEmail
      location := mergedLocation
      company := mergedCompany
      author_position := mergedPos
      pubmed_id := mergedPmid
      publication_journal := mergedJournal
      publication_date := mergedDate }

/-- Embeds `_is_same_person lead1 lead2 threshold`, parameterized by the two
`fuzzywuzzy` similarity functions.  Names are lower-cased and stripped; empty
names never match; the name test takes the max of the two similarity scores
against the threshold; companies block only when both are non-empty. -/
def isSamePerson (ratioFn tokenSetRatioFn : String → String → Nat)
    (threshold : Nat) (lead1 lead2 : Lead) : Bool :=
  let name1 := pyStrip (pyLower lead1.name)
  let name2 := pyStrip (pyLower lead2.name)
  let company1 := pyStrip (pyLower lead1.company)
  let company2 := pyStrip (pyLower lead2.company)
  if name1 = "" ∨ name2 = "" then false
  else
    let nameMatch := threshold ≤ max (ratioFn name1 name2) (tokenSetRatioFn name1 name2)
    let companyMatch :=
      if company1 ≠ "" ∧ company2 ≠ "" then
        (80 ≤ ratioFn company1 company2 ∨ company1 = company2 : Bool)
      else true
    nameMatch && companyMatch

/-- Name-similarity threshold from `deduplicate_leads`. -/
def SIMILARITY_THRESHOLD : Nat := 85

/-- Worker for `deduplicate_leads`, structurally recursive on a fuel
argument so that concrete runs kernel-evaluate.  The source's outer loop with
its `seen_indices` set is equivalent to: take the first unconsumed record as
the seed, fold every later record that `_is_same_person` matches *against the
seed itself* (`lead1`, not the accumulating `merged_lead`) into the seed via
`_merge_lead_data` in input order, and recurse on the non-matching
remainder. -/
def dedupGo (ratioFn tokenSetRatioFn : String → String → Nat) :
    Nat → List Lead → List Lead
  | 0, _ => []
  | _, [] => []
  | fuel + 1, l :: rest =>
      let dups := rest.filter (fun x => isSamePerson ratioFn tokenSetRatioFn SIMILARITY_THRESHOLD l x)
      let others := rest.filter (fun x => ! isSamePerson ratioFn tokenSetRatioFn SIMILARITY_THRESHOLD l x)
      dups.foldl mergeLeadData l :: dedupGo ratioFn tokenSetRatioFn fuel others

/-- Embeds `deduplicate_leads`, parameterized by the `fuzzywuzzy` similarity
functions.  The list length is always enough fuel, since every step consumes
at least the seed. -/
def deduplicateLeads (ratioFn tokenSetRatioFn : String → String → Nat)
    (leads : List Lead) : List Lead :=
  dedupGo ratioFn tokenSetRatioFn leads.length leads

/-! ### Rank assignment (`stages/stage3_ranking.py`) -/

/-- Loop body of `_assign_ranks`: carries `current_rank`, `current_score`
(`none` models the initial Python `None`) and `rank_count` exactly as the
source does, and emits the rank assigned to each record in order. -/
def assignRanksGo (currentRank : Nat) (currentScore : Option Nat) (rankCount : Nat) :
    List Nat → List Nat
  | [] => []
  | s :: rest =>
      match currentScore with
      | none => currentRank :: assignRanksGo currentRank (some s) 1 rest
      | some c =>
          if s ≠ c then
            (currentRank + rankCount) ::
              assignRanksGo (currentRank + rankCount) (some s) 1 rest
          else
            currentRank :: assignRanksGo currentRank (some c) (rankCount + 1) rest

/-- Embeds `_assign_ranks` on the score sequence: returns the list of ranks
assigned to the records, in order (the source stores each rank into the
record dict; payloads are irrelevant to the rank values). -/
def assignRanks (scores : List Nat) : List Nat :=
  assignRanksGo 1 none 0 scores

/-- Modelled from the spec's words for claim C3: competition ("1224") ranking
— every record's rank is 1 plus the number of records with a strictly higher
score. -/
def competitionRanks (scores : List Nat) : List Nat :=
  scores.map (fun s => 1 + scores.countP (fun t => decide (s < t)))

/-! ### Affiliation company extraction (`utils/data_processing.py`) -/

/-- Tests whether a whitespace-free run of characters is deleted by the
source's email-stripping regex `re.sub(r'\S+@\S+', '', text)`: the greedy
pattern consumes a whole run exactly when some `'@'` occurs with at least one
character before it and one after it inside the run. -/
def emailLikeRun (run : List Char) : Bool :=
  ((run.drop 1).dropLast).contains '@'

/-- Embeds `re.sub(r'\S+@\S+', '', text)`: split the text into maximal runs
of same whitespace-class characters, delete the runs the regex matches, and
reassemble.  Matches never cross whitespace, so whole-run deletion is exact. -/
def stripEmails (text : String) : String :=
  String.mk
    (((text.data.splitBy (fun a b => a.isWhitespace == b.isWhitespace)).map
        (fun run => if emailLikeRun run then [] else run)).flatten)

/-- Institutional denylist from `extract_company_from_affiliation`. -/
def skipKeywords : List String :=
  ["department", "university", "college", "school", "institute",
   "institution", "center", "centre", "laboratory", "lab", "faculty"]

/-- Keyword test of the first loop: any denylist keyword occurs in the
lower-cased segment. -/
def segmentHasSkipKeyword (part : String) : Bool :=
  skipKeywords.any (fun k => strContains (pyLower part) k)

/-- Digit-leading test of the first loop, `re.match(r'^\d+', part)`. -/
def segmentStartsWithDigit (part : String) : Bool :=
  match part.data with
  | [] => false
  | c :: _ => c.isDigit

/-- First loop of `extract_company_from_affiliation` over the comma segments:
skip keyword segments, skip digit-leading or too-short segments, return the
first remaining segment longer than 3 characters. -/
def companyLoop : List String → Option String
  | [] => none
  | p :: rest =>
      if segmentHasSkipKeyword p then companyLoop rest
      else if segmentStartsWithDigit p ∨ p.length < 3 then companyLoop rest
      else if p.length > 3 then some p
      else companyLoop rest

/-- Fallback loop of `extract_company_from_affiliation`: the first segment
longer than 5 characters, over all segments. -/
def companyFallbackLoop : List String → Option String
  | [] => none
  | p :: rest => if p.length > 5 then some p else companyFallbackLoop rest

/-- Embeds `extract_company_from_affiliation`. -/
def extractCompanyFromAffiliation (affiliation : String) : String :=
  if affiliation = "" then "Unknown"
  else
    let stripped := stripEmails affiliation
    let parts := (pySplitComma stripped).map pyStrip
    match companyLoop parts with
    | some p => p
    | none =>
        match companyFallbackLoop parts with
        | some p => p
        | none => "Unknown"

/-- Discard predicate of the spec's description of `extract_company`: a
segment is discarded when it contains a denylist keyword, is digit-leading,
or is shorter than 3 characters. -/
def segmentDiscarded (p : String) : Bool :=
  segmentHasSkipKeyword p || segmentStartsWithDigit p || decide (p.length < 3)

/-- Modelled from the spec's words for claim C9 (the sentence describing
`extract_company`): strip emails, split on commas, discard segments per
`segmentDiscarded`; return the first *surviving* segment longer than 3
characters; failing that, the first segment longer than 5 characters;
failing that, `"Unknown"`. -/
def extractCompanySpec (affiliation : String) : String :=
  if affiliation = "" then "Unknown"
  else
    let parts := (pySplitComma (stripEmails affiliation)).map pyStrip
    let survivors := parts.filter (fun p => ! segmentDiscarded p)
    match survivors.find? (fun p => decide (3 < p.length)) with
    | some p => p
    | none =>
        match parts.find? (fun p => decide (5 < p.length)) with
        | some p => p
        | none => "Unknown"

/-! ### Expiring cache store (`stages/cache_manager.py`)

The persisted document's `search_queries` mapping becomes an ordered
association list (Python dicts preserve insertion order); cache keys are
opaque strings compared only for equality, modelled as `Nat`.  Timestamps are
ISO strings in the source, written by `datetime.now().isoformat()` and parsed
by `datetime.fromisoformat`; the model keeps the three observationally
distinct cases — empty string, unparsable string, parsed instant — with
instants as `Nat` ticks (lexicographic order on equal-length ISO strings is
chronological order).  The expiry comparison `entry_date < now - window`
becomes `t + window < now`.  Wall-clock metadata strings (`created`,
`last_cleanup`, `last_updated`) and the unused `final_results` slot are not
modelled; `metadata['total_queries']` is kept. -/

/-- A stored timestamp: the empty string, an unparsable non-empty string, or
a parsed instant. -/
inductive CacheTS where
  | empty
  | invalid
  | valid (t : Nat)
deriving DecidableEq, Repr

/-- One `search_queries` entry: `timestamp`, `results`, `count`. -/
structure CacheEntry where
  timestamp : CacheTS
  results : List Lead
  count : Nat
deriving DecidableEq, Repr

/-- The persisted cache document (the parts the claims observe). -/
structure Cache where
  searchQueries : List (Nat × CacheEntry)
  totalQueries : Nat
deriving DecidableEq, Repr

/-- `MAX_CACHE_ENTRIES` from the source. -/
def MAX_CACHE_ENTRIES : Nat := 50

/-- `CACHE_EXPIRY_DAYS` from the source (the default expiry window). -/
def CACHE_EXPIRY_DAYS : Nat := 30

/-- Embeds `_create_empty_cache` (observable parts). -/
def emptyCache : Cache := { searchQueries := [], totalQueries := 0 }

/-- Python-dict lookup on the association list. -/
def lookupEntry (key : Nat) : List (Nat × CacheEntry) → Option CacheEntry
  | [] => none
  | kv :: rest => if kv.1 = key then some kv.2 else lookupEntry key rest

/-- Python-dict assignment: an existing key is updated in place, a new key is
appended at the end. -/
def setEntry (key : Nat) (e : CacheEntry) : List (Nat × CacheEntry) → List (Nat × CacheEntry)
  | [] => [(key, e)]
  | kv :: rest => if kv.1 = key then (key, e) :: rest else kv :: setEntry key e rest

/-- Python-dict `del`. -/
def removeEntry (key : Nat) (l : List (Nat × CacheEntry)) : List (Nat × CacheEntry) :=
  l.filter (fun kv => kv.1 ≠ key)

/-- Expiry test performed on one entry by `_cleanup_expired_entries`: an empty
timestamp string is skipped (never marked), an unparsable one raises in
`fromisoformat` and is marked for removal, a parsed one is marked when
`entry_date < now - expiry_window`. -/
def tsExpired (now window : Nat) : CacheTS → Bool
  | .empty => false
  | .invalid => true
  | .valid t => decide (t + window < now)

/-- Embeds `_cleanup_expired_entries`: drops every marked entry; the metadata
counter is refreshed only when something was actually removed (the source
guards the metadata update with `if expired_keys:`). -/
def cleanupExpiredEntries (now window : Nat) (c : Cache) : Cache :=
  let kept := c.searchQueries.filter (fun kv => ! tsExpired now window kv.2.timestamp)
  { searchQueries := kept
    totalQueries :=
      if kept.length = c.searchQueries.length then c.totalQueries else kept.length }

/-- Sort key of the eviction sort (`key=lambda x: x[1].get('timestamp', '')`):
the empty string sorts below every ISO timestamp, and ISO timestamps sort
chronologically.  Unparsable timestamps are always removed by the expiry
sweep before eviction runs, so their sort position is immaterial; the model
gives them the bottom key. -/
def tsSortKey : CacheTS → Nat
  | .empty => 0
  | .invalid => 0
  | .valid t => t + 1

/-- Comparison used to sort entries newest-first (`reverse=True`); a stable
insertion sort below matches Python's stable `sorted`. -/
def newestFirst (a b : Nat × CacheEntry) : Prop :=
  tsSortKey b.2.timestamp ≤ tsSortKey a.2.timestamp

instance : DecidableRel newestFirst := fun _ _ => Nat.decLe _ _

instance : IsTotal (Nat × CacheEntry) newestFirst :=
  ⟨fun a b => Nat.le_total (tsSortKey b.2.timestamp) (tsSortKey a.2.timestamp)⟩

instance : IsTrans (Nat × CacheEntry) newestFirst :=
  ⟨fun _ _ _ h1 h2 => Nat.le_trans h2 h1⟩

/-- Embeds `_remove_oldest_entries`: sort newest-first, keep the first
`keepCount`, refresh the metadata counter. -/
def removeOldestEntries (c : Cache) (keepCount : Nat) : Cache :=
  let sortedEntries := c.searchQueries.insertionSort newestFirst
  let kept := sortedEntries.take keepCount
  { searchQueries := kept, totalQueries := kept.length }

/-- Embeds `_enforce_size_limits`.  The first branch reacts to
`os.path.getsize(self.cache_file)` — the byte size of the *previously
persisted* file, an environment observation modelled as the boolean input
`fileSizeExceeded` (the surrounding `try` also makes it a no-op when the file
is missing, i.e. the flag is false then); note it responds by trimming to the
entry cap `MAX_CACHE_ENTRIES`, not to the byte budget.  The second branch
enforces the entry cap. -/
def enforceSizeLimits (fileSizeExceeded : Bool) (c : Cache) : Cache :=
  let c1 := if fileSizeExceeded then removeOldestEntries c MAX_CACHE_ENTRIES else c
  if MAX_CACHE_ENTRIES < c1.searchQueries.length then
    removeOldestEntries c1 MAX_CACHE_ENTRIES
  else c1

/-- The pure transformation `load_cache` applies to a well-formed persisted
document: the expiry sweep followed by size-limit enforcement.  Nothing is
written back to the file. -/
def loadCachePure (now window : Nat) (fileSizeExceeded : Bool) (c : Cache) : Cache :=
  enforceSizeLimits fileSizeExceeded (cleanupExpiredEntries now window c)

/-- Embeds the observable effect of `save_cache` on the persisted document:
the metadata counter is refreshed and the document is written atomically. -/
def saveCachePure (c : Cache) : Cache :=
  { c with totalQueries := c.searchQueries.length }

/-- Embeds `get_cached_results` as a function of the persisted store,
returning the caller-visible result and the persisted store afterwards.  The
source loads the cache (sweep + size limits, in memory), looks the key up,
returns the payload for a missing/empty timestamp, `None` for an unparsable
one, and in the expired branch deletes the entry and persists; that branch is
kept although the sweep has already removed such entries from the loaded
view. -/
def getCachedResults (now window : Nat) (fileSizeExceeded : Bool) (key : Nat)
    (persisted : Cache) : Option (List Lead) × Cache :=
  let c := loadCachePure now window fileSizeExceeded persisted
  match lookupEntry key c.searchQueries with
  | none => (none, persisted)
  | some e =>
      match e.timestamp with
      | .empty => (some e.results, persisted)
      | .invalid => (none, persisted)
      | .valid t =>
          if t + window < now then
            (none, saveCachePure { c with searchQueries := removeEntry key c.searchQueries })
          else (some e.results, persisted)

/-- Embeds `save_query_results` (a `put`): load (sweep + size limits), insert
or replace the entry stamped with the current instant, save.  The save does
not re-run the size limits. -/
def saveQueryResults (now window : Nat) (fileSizeExceeded : Bool) (key : Nat)
    (results : List Lead) (persisted : Cache) : Cache :=
  let c := loadCachePure now window fileSizeExceeded persisted
  let entry : CacheEntry :=
    { timestamp := .valid now, results := results, count := results.length }
  saveCachePure { c with searchQueries := setEntry key entry c.searchQueries }

/-- One `put` call's inputs: key, wall-clock instant, and whether the
previously persisted file exceeded the byte budget at load time. -/
structure PutOp where
  key : Nat
  now : Nat
  fileSizeExceeded : Bool
  results : List Lead
deriving DecidableEq, Repr

/-- Runs a sequence of `put` calls against an initially empty persisted
store. -/
def runPuts (window : Nat) (ops : List PutOp) : Cache :=
  ops.foldl
    (fun c op => saveQueryResults op.now window op.fileSizeExceeded op.key op.results c)
    emptyCache

/-- How `load_cache` obtained the persisted document: the file may be
missing, fail JSON parsing (`json.JSONDecodeError`), parse to a non-dict
(`not isinstance(cache_data, dict)`), fail with any other exception, or
yield a well-formed document. -/
inductive LoadSource where
  | missingFile
  | parseFailure
  | wrongShape
  | otherFailure
  | wellFormed (c : Cache)
deriving DecidableEq, Repr

/-- The file-system side effect of a load: nothing, or the corrupted file is
renamed aside (`_backup_corrupted_cache`). -/
inductive LoadSideEffect where
  | noEffect
  | quarantineRename
deriving DecidableEq, Repr

/-- Embeds `load_cache` over the load-outcome enumeration.  Every failure
case returns the empty store (the caller never sees an exception — each
failure path in the source ends in `return self._create_empty_cache()`);
only a JSON parse failure triggers the quarantine rename. -/
def loadCache (now window : Nat) (fileSizeExceeded : Bool) :
    LoadSource → Cache × LoadSideEffect
  | .missingFile => (emptyCache, .noEffect)
  | .parseFailure => (emptyCache, .quarantineRename)
  | .wrongShape => (emptyCache, .noEffect)
  | .otherFailure => (emptyCache, .noEffect)
  | .wellFormed c => (loadCachePure now window fileSizeExceeded c, .noEffect)

/-- How the file-system treated `save_cache`'s write-and-rename: success,
`PermissionError`, or any other exception. -/
inductive WriteOutcome where
  | writeOk
  | permissionDenied
  | otherWriteFailure
deriving DecidableEq, Repr

/-- Embeds the caller-visible result of `save_cache`: a boolean, `True` only
on a completed atomic write — every exception path returns `False` rather
than raising. -/
def saveCacheOutcome : WriteOutcome → Bool
  | .writeOk => true
  | .permissionDenied => false
  | .otherWriteFailure => false

/-! ### Concrete instances used by counterexamples and witnesses -/

/-- A lead with a scientific keyword in its title and a publication date more
than two years before 2026. -/
def c1Lead : Lead :=
  { publication_title := "Hepatotoxicity of compound X"
    publication_date := "2010-01-01" }

/-- A concrete character-level similarity function (standing in for
`fuzz.ratio`) under which `exLeadA` matches `exLeadB`, `exLeadB` matches
`exLeadC`, but `exLeadA` does not match `exLeadC`. -/
def exRatio : String → String → Nat := fun a b =>
  if a = b then 100
  else if (a = "alice one" ∧ b = "alice two") ∨ (a = "alice two" ∧ b = "alice one") then 90
  else if (a = "alice two" ∧ b = "alice three") ∨ (a = "alice three" ∧ b = "alice two") then 90
  else 0

/-- A concrete token-set similarity function (standing in for
`fuzz.token_set_ratio`) that never matches. -/
def exTok : String → String → Nat := fun _ _ => 0

/-- First record of the dedup non-closure example (the cluster seed). -/
def exLeadA : Lead := { name := "Alice One" }

/-- Second record: matches the seed. -/
def exLeadB : Lead := { name := "Alice Two" }

/-- Third record: matches `exLeadB` but not the seed. -/
def exLeadC : Lead := { name := "Alice Three" }

/-- A record with an empty name. -/
def exLeadNoName : Lead := { email := "anon@x.com" }

/-- Fifty-one `put` calls with distinct keys, a common timestamp, and the
byte-size flag off. -/
def c2Ops : List PutOp :=
  (List.range 51).map (fun i => { key := i, now := 100, fileSizeExceeded := false, results := [] })

/-- A two-entry store whose key-0 entry is older than its key-1 entry. -/
def evStore : Cache :=
  { searchQueries :=
      [(0, { timestamp := .valid 1, results := [], count := 0 }),
       (1, { timestamp := .valid 5, results := [], count := 0 })]
    totalQueries := 2 }

/-- An entry stamped at instant 0. -/
def c7Entry : CacheEntry := { timestamp := .valid 0, results := [{ name := "Old Lead" }], count := 1 }

/-- A store holding only `c7Entry` under key 0; with window 1 and now 5 the
entry is expired. -/
def c7Store : Cache := { searchQueries := [(0, c7Entry)], totalQueries := 1 }

/-- An entry whose timestamp field is the empty string. -/
def c10Entry : CacheEntry := { timestamp := .empty, results := [{ name := "Ageless" }], count := 1 }

/-- A store holding only `c10Entry` under key 7. -/
def c10Store : Cache := { searchQueries := [(7, c10Entry)], totalQueries := 1 }

/-! ## Theorems -/

/-- Claim C1: the scientific-intent rule never withholds the 40 points once a
keyword matches — evaluated at a concrete record whose publication is dated
2010, far more than 2 years before the current year 2026, the sub-score is
still 40, where the claim (and the source's own docstring, "Checks if
published on DILI/liver toxicity in last 2 years") requires 0.  The failed
recency comparison falls through to the trailing `return 40`. -/
theorem scientificIntent_awards_40_for_old_publication :
    calculateScientificIntentScore 2026 c1Lead = 40 ∧ (2 : Int) < 2026 - 2010 := by
  constructor
  · decide
  · decide

/-- Claim C8: every load failure (missing file, JSON parse failure, wrong
document shape, any other exception) yields the empty store without raising
— `loadCache` is a total function over the failure enumeration — a parse
failure additionally quarantines the file by renaming, and `save_cache`
reports each write outcome as a boolean, `true` exactly on success. -/
theorem loadCache_failure_semantics :
    (∀ now window flag,
        loadCache now window flag LoadSource.missingFile = (emptyCache, LoadSideEffect.noEffect))
  ∧ (∀ now window flag,
        loadCache now window flag LoadSource.parseFailure = (emptyCache, LoadSideEffect.quarantineRename))
  ∧ (∀ now window flag,
        loadCache now window flag LoadSource.wrongShape = (emptyCache, LoadSideEffect.noEffect))
  ∧ (∀ now window flag,
        loadCache now window flag LoadSource.otherFailure = (emptyCache, LoadSideEffect.noEffect))
  ∧ (∀ o, saveCacheOutcome o = true ↔ o = WriteOutcome.writeOk) := by
  refine ⟨fun _ _ _ => rfl, fun _ _ _ => rfl, fun _ _ _ => rfl, fun _ _ _ => rfl, fun o => ?_⟩
  cases o <;> simp [saveCacheOutcome]

/-- The role-fit rule never exceeds its 30-point maximum. -/
theorem calculateRoleFitScore_le (lead : Lead) : calculateRoleFitScore lead ≤ 30 := by
  simp only [calculateRoleFitScore]
  repeat' split
  all_goals omega

/-- The scientific-intent rule never exceeds its 40-point maximum. -/
theorem calculateScientificIntentScore_le (currentYear : Int) (lead : Lead) :
    calculateScientificIntentScore currentYear lead ≤ 40 := by
  simp only [calculateScientificIntentScore]
  repeat' split
  all_goals omega

/-- The company-intent rule never exceeds its 20-point maximum. -/
theorem calculateCompanyIntentScore_le (lead : Lead) : calculateCompanyIntentScore lead ≤ 20 := by
  simp only [calculateCompanyIntentScore]
  repeat' split
  all_goals omega

/-- The technographic rule never exceeds its 15-point maximum. -/
theorem calculateTechnographicScore_le (lead : Lead) : calculateTechnographicScore lead ≤ 15 := by
  simp only [calculateTechnographicScore]
  repeat' split
  all_goals omega

/-- The location rule never exceeds its 10-point maximum. -/
theorem calculateLocationScore_le (lead : Lead) : calculateLocationScore lead ≤ 10 := by
  simp only [calculateLocationScore]
  repeat' split
  all_goals omega

/-- Claim C4: for every record, each sub-score of the breakdown is bounded by
its rule's maximum (30/40/20/15/10; non-negativity is intrinsic, the scores
are naturals), and the propensity score equals the breakdown sum capped at
100. -/
theorem propensityScore_bounds_and_cap (currentYear : Int) (lead : Lead) :
    (calculatePropensityScore currentYear lead).score_breakdown.role_fit ≤ 30
  ∧ (calculatePropensityScore currentYear lead).score_breakdown.scientific_intent ≤ 40
  ∧ (calculatePropensityScore currentYear lead).score_breakdown.company_intent ≤ 20
  ∧ (calculatePropensityScore currentYear lead).score_breakdown.technographic ≤ 15
  ∧ (calculatePropensityScore currentYear lead).score_breakdown.location ≤ 10
  ∧ (calculatePropensityScore currentYear lead).propensity_score =
      min 100
        ((calculatePropensityScore currentYear lead).score_breakdown.role_fit +
         (calculatePropensityScore currentYear lead).score_breakdown.scientific_intent +
         (calculatePropensityScore currentYear lead).score_breakdown.company_intent +
         (calculatePropensityScore currentYear lead).score_breakdown.technographic +
         (calculatePropensityScore currentYear lead).score_breakdown.location) := by
  refine ⟨?_, ?_, ?_, ?_, ?_, ?_⟩
  · exact calculateRoleFitScore_le lead
  · exact calculateScientificIntentScore_le currentYear lead
  · exact calculateCompanyIntentScore_le lead
  · exact calculateTechnographicScore_le lead
  · exact calculateLocationScore_le lead
  · simp only [calculatePropensityScore]
    exact Nat.min_comm _ _

/-- Claim C5: the merge policy concatenates two distinct non-empty emails
with `"; "`, replaces a literal `"Unknown"` seed company by the other
record's real company, upgrades the author position to the higher-priority
one under the fixed ranking (Corresponding 4 > First 3 > Last 2 > Co-Author
1, unknown values 0), and never overwrites a seed's non-empty location. -/
theorem mergeLeadData_policy :
    (∀ l1 l2 : Lead, l1.email = "a@x.com" → l2.email = "b@x.com" →
        (mergeLeadData l1 l2).email = "a@x.com; b@x.com")
  ∧ (∀ l1 l2 : Lead, l1.company = "Unknown" → l2.company = "Acme" →
        (mergeLeadData l1 l2).company = "Acme")
  ∧ (∀ l1 l2 : Lead, l1.author_position = "Co-Author" →
        l2.author_position = "Corresponding Author" →
        (mergeLeadData l1 l2).author_position = "Corresponding Author")
  ∧ (authorPositionValue "Corresponding Author" = 4
     ∧ authorPositionValue "First Author" = 3
     ∧ authorPositionValue "Last Author" = 2
     ∧ authorPositionValue "Co-Author" = 1
     ∧ (∀ p, p ≠ "Corresponding Author" → p ≠ "First Author" → p ≠ "Last Author" →
          p ≠ "Co-Author" → authorPositionValue p = 0))
  ∧ (∀ l1 l2 : Lead, l1.location ≠ "" → (mergeLeadData l1 l2).location = l1.location) := by
  refine ⟨?_, ?_, ?_, ⟨rfl, rfl, rfl, rfl, ?_⟩, ?_⟩
  · intro l1 l2 h1 h2
    simp [mergeLeadData, h1, h2]
  · intro l1 l2 h1 h2
    simp [mergeLeadData, h1, h2]
  · intro l1 l2 h1 h2
    simp [mergeLeadData, h1, h2, authorPositionValue]
  · intro p h1 h2 h3 h4
    simp [authorPositionValue, h1, h2, h3, h4]
  · intro l1 l2 h
    simp [mergeLeadData, h]

/-- Witness for C5 at concrete records. -/
theorem mergeLeadData_policy_witness :
    (mergeLeadData { email := "a@x.com" } { email := "b@x.com" }).email = "a@x.com; b@x.com"
  ∧ (mergeLeadData { company := "Unknown" } { company := "Acme" }).company = "Acme"
  ∧ (mergeLeadData { author_position := "Co-Author" }
       { author_position := "Corresponding Author" }).author_position = "Corresponding Author"
  ∧ authorPositionValue "Reviewing Editor" = 0
  ∧ (mergeLeadData { location := "Boston" } { location := "Paris" }).location = "Boston" := by
  have h := mergeLeadData_policy
  exact ⟨h.1 _ _ rfl rfl, h.2.1 _ _ rfl rfl, h.2.2.1 _ _ rfl rfl,
    h.2.2.2.1.2.2.2.2 "Reviewing Editor" (by decide) (by decide) (by decide) (by decide),
    h.2.2.2.2 { location := "Boston" } { location := "Paris" } (by decide)⟩

/-- The source's first scanning loop is the first element of the filtered
survivor list that is longer than 3 characters. -/
theorem companyLoop_eq_filter_find (parts : List String) :
    companyLoop parts =
      (parts.filter (fun p => ! segmentDiscarded p)).find? (fun p => decide (3 < p.length)) := by
  induction parts with
  | nil => rfl
  | cons p rest ih =>
      cases h1 : segmentHasSkipKeyword p with
      | true => simp [companyLoop, segmentDiscarded, h1, ih]
      | false =>
          cases h2 : segmentStartsWithDigit p with
          | true => simp [companyLoop, segmentDiscarded, h1, h2, ih]
          | false =>
              by_cases h3 : p.length < 3
              · simp [companyLoop, segmentDiscarded, h1, h2, h3, ih]
              · by_cases h4 : 3 < p.length
                · simp [companyLoop, segmentDiscarded, h1, h2, h3, h4, ih]
                · simp [companyLoop, segmentDiscarded, h1, h2, h3, h4, ih]

/-- The source's fallback loop is the first segment longer than 5
characters. -/
theorem companyFallbackLoop_eq_find (parts : List String) :
    companyFallbackLoop parts = parts.find? (fun p => decide (5 < p.length)) := by
  induction parts with
  | nil => rfl
  | cons p rest ih =>
      by_cases h : 5 < p.length <;> simp [companyFallbackLoop, List.find?, h, ih]

/-- Claim C9: `extract_company_from_affiliation` behaves exactly as the spec
describes — strip emails, split on commas, discard keyword/digit-leading/
too-short segments, return the first surviving segment longer than 3
characters, else the first segment longer than 5 characters, else
`"Unknown"`. -/
theorem extractCompany_matches_spec (affiliation : String) :
    extractCompanyFromAffiliation affiliation = extractCompanySpec affiliation := by
  simp only [extractCompanyFromAffiliation, extractCompanySpec,
    companyLoop_eq_filter_find, companyFallbackLoop_eq_find]

/-- Invariant of the `_assign_ranks` loop: after the non-empty sorted prefix
`done` (whose minimum and most recent element is `c`) has been processed, the
carried state is `current_rank = 1 + #(done strictly above c)` and
`rank_count = #(done equal to c)`, and the loop emits, for every remaining
record, 1 plus the number of strictly higher scores in the whole list. -/
theorem assignRanksGo_spec (rest : List Nat) :
    ∀ (done : List Nat) (c : Nat), c ∈ done → (∀ x ∈ done, c ≤ x) →
      (∀ y ∈ rest, ∀ x ∈ done, y ≤ x) → rest.Sorted (· ≥ ·) →
      assignRanksGo (1 + done.countP (fun x => decide (c < x))) (some c)
          (done.countP (fun x => decide (x = c))) rest
        = rest.map (fun s => 1 + (done ++ rest).countP (fun t => decide (s < t))) := by
  induction rest with
  | nil => intro done c _ _ _ _; rfl
  | cons s rest' ih =>
      intro done c hmem hc hcross hsort
      have hrest' : rest'.Sorted (· ≥ ·) := (List.sorted_cons.mp hsort).2
      have hhead : ∀ y ∈ rest', y ≤ s := (List.sorted_cons.mp hsort).1
      have happ : done ++ s :: rest' = (done ++ [s]) ++ rest' := by simp
      have hzero : rest'.countP (fun t => decide (s < t)) = 0 :=
        List.countP_eq_zero.mpr (fun y hy => by
          have := hhead y hy
          simp only [decide_eq_true_eq]
          omega)
      have hsums : ((done ++ [s]) ++ rest').countP (fun t => decide (s < t)) =
          done.countP (fun t => decide (s < t)) := by
        rw [List.countP_append, List.countP_append, hzero]
        simp
      by_cases hsc : s = c
      · subst hsc
        have hstep : assignRanksGo (1 + done.countP (fun x => decide (s < x))) (some s)
            (done.countP (fun x => decide (x = s))) (s :: rest') =
            (1 + done.countP (fun x => decide (s < x))) ::
              assignRanksGo (1 + done.countP (fun x => decide (s < x))) (some s)
                (done.countP (fun x => decide (x = s)) + 1) rest' := by
          simp [assignRanksGo]
        rw [hstep, happ]
        have hmem' : s ∈ done ++ [s] := by simp
        have hc' : ∀ x ∈ done ++ [s], s ≤ x := by
          intro x hx
          rcases List.mem_append.mp hx with hx | hx
          · exact hc x hx
          · simp at hx; omega
        have hcross' : ∀ y ∈ rest', ∀ x ∈ done ++ [s], y ≤ x := by
          intro y hy x hx
          rcases List.mem_append.mp hx with hx | hx
          · exact hcross y (List.mem_cons_of_mem _ hy) x hx
          · simp at hx; subst hx; exact hhead y hy
        have hK : (done ++ [s]).countP (fun x => decide (x = s)) =
            done.countP (fun x => decide (x = s)) + 1 := by
          rw [List.countP_append]; simp
        have hR : (done ++ [s]).countP (fun x => decide (s < x)) =
            done.countP (fun x => decide (s < x)) := by
          rw [List.countP_append]; simp
        have htail := ih (done ++ [s]) s hmem' hc' hcross' hrest'
        rw [hK, hR] at htail
        rw [htail]
        congr 1
        simp [List.countP_append, hzero]
      · have hslec : s ≤ c := hcross s (List.mem_cons_self _ _) c hmem
        have hsltc : s < c := lt_of_le_of_ne hslec hsc
        have hstep : assignRanksGo (1 + done.countP (fun x => decide (c < x))) (some c)
            (done.countP (fun x => decide (x = c))) (s :: rest') =
            (1 + done.countP (fun x => decide (c < x)) +
              done.countP (fun x => decide (x = c))) ::
              assignRanksGo (1 + done.countP (fun x => decide (c < x)) +
                done.countP (fun x => decide (x = c))) (some s) 1 rest' := by
          simp [assignRanksGo, hsc]
        rw [hstep, happ]
        have hlen : done.countP (fun x => decide (c < x)) +
            done.countP (fun x => decide (x = c)) = done.length := by
          rw [List.length_eq_countP_add_countP (fun x => decide (c < x))]
          congr 1
          apply List.countP_congr
          intro x hx
          have := hc x hx
          simp only [decide_eq_true_eq]
          omega
        have hdall : done.countP (fun t => decide (s < t)) = done.length :=
          List.countP_eq_length.mpr (fun x hx => by
            have := hc x hx
            simp only [decide_eq_true_eq]
            omega)
        have hmem' : s ∈ done ++ [s] := by simp
        have hc' : ∀ x ∈ done ++ [s], s ≤ x := by
          intro x hx
          rcases List.mem_append.mp hx with hx | hx
          · have := hc x hx; omega
          · simp at hx; omega
        have hcross' : ∀ y ∈ rest', ∀ x ∈ done ++ [s], y ≤ x := by
          intro y hy x hx
          rcases List.mem_append.mp hx with hx | hx
          · exact hcross y (List.mem_cons_of_mem _ hy) x hx
          · simp at hx; subst hx; exact hhead y hy
        have hK1 : (done ++ [s]).countP (fun x => decide (x = s)) = 1 := by
          rw [List.countP_append]
          have : done.countP (fun x => decide (x = s)) = 0 :=
            List.countP_eq_zero.mpr (fun x hx => by
              have := hc x hx
              simp only [decide_eq_true_eq]
              omega)
          rw [this]
          simp
        have hR1 : 1 + (done ++ [s]).countP (fun x => decide (s < x)) =
            1 + done.countP (fun x => decide (c < x)) +
              done.countP (fun x => decide (x = c)) := by
          rw [List.countP_append, hdall]
          have hs0 : ([s] : List Nat).countP (fun x => decide (s < x)) = 0 := by simp
          rw [hs0]
          omega
        have htail := ih (done ++ [s]) s hmem' hc' hcross' hrest'
        rw [hK1, hR1] at htail
        rw [htail]
        congr 1
        have hh : ((done ++ [s]) ++ rest').countP (fun t => decide (s < t)) = done.length := by
          rw [List.countP_append, List.countP_append, hzero, hdall]
          simp
        simp only [hh]
        omega

/-- Claim C3: on an input already sorted by score descending, `_assign_ranks`
produces exactly the competition ranks — tied scores share a rank, the rank
of each score is 1 plus the number of strictly higher scores, and the first
record gets rank 1. -/
theorem assignRanks_eq_competitionRanks (scores : List Nat)
    (hsort : scores.Sorted (· ≥ ·)) :
    assignRanks scores = competitionRanks scores := by
  cases scores with
  | nil => rfl
  | cons s rest =>
      have hrest : rest.Sorted (· ≥ ·) := (List.sorted_cons.mp hsort).2
      have hhead : ∀ y ∈ rest, y ≤ s := (List.sorted_cons.mp hsort).1
      have hzero : (s :: rest).countP (fun t => decide (s < t)) = 0 :=
        List.countP_eq_zero.mpr (fun y hy => by
          rcases List.mem_cons.mp hy with rfl | hy
          · simp
          · have := hhead y hy
            simp only [decide_eq_true_eq]
            omega)
      have hstep : assignRanks (s :: rest) = 1 :: assignRanksGo 1 (some s) 1 rest := by
        simp [assignRanks, assignRanksGo]
      have hspec := assignRanksGo_spec rest [s] s (by simp) (by simp)
        (fun y hy x hx => by simp at hx; subst hx; exact hhead y hy) hrest
      have h1 : ([s] : List Nat).countP (fun x => decide (s < x)) = 0 := by simp
      have h2 : ([s] : List Nat).countP (fun x => decide (x = s)) = 1 := by simp
      rw [h1, h2] at hspec
      rw [hstep]
      unfold competitionRanks
      simp only [List.map_cons]
      rw [hzero]
      have : ([s] : List Nat) ++ rest = s :: rest := rfl
      rw [this] at hspec
      rw [hspec]

/-- Witness for C3 at the spec's example: scores `[90, 90, 70, 70, 70, 10]`
are sorted descending and receive ranks `[1, 1, 3, 3, 3, 6]`. -/
theorem assignRanks_eq_competitionRanks_witness :
    ([90, 90, 70, 70, 70, 10] : List Nat).Sorted (· ≥ ·)
  ∧ assignRanks [90, 90, 70, 70, 70, 10] = [1, 1, 3, 3, 3, 6] := by
  have hs : ([90, 90, 70, 70, 70, 10] : List Nat).Sorted (· ≥ ·) := by decide
  refine ⟨hs, ?_⟩
  rw [assignRanks_eq_competitionRanks _ hs]
  decide

/-- The fuel argument of `dedupGo` is irrelevant once it covers the list
length. -/
theorem dedupGo_fuel_eq (ratioFn tokenSetRatioFn : String → String → Nat) :
    ∀ fuel fuel' (l : List Lead), l.length ≤ fuel → l.length ≤ fuel' →
      dedupGo ratioFn tokenSetRatioFn fuel l = dedupGo ratioFn tokenSetRatioFn fuel' l := by
  intro fuel
  induction fuel with
  | zero =>
      intro fuel' l h _
      have : l = [] := List.length_eq_zero.mp (Nat.le_zero.mp h)
      subst this
      cases fuel' <;> rfl
  | succ f ih =>
      intro fuel' l h h'
      cases l with
      | nil => cases fuel' <;> rfl
      | cons hd rest =>
          cases fuel' with
          | zero => simp at h'
          | succ f' =>
              simp only [dedupGo]
              congr 1
              exact ih f' _
                (Nat.le_trans (List.length_filter_le _ _) (Nat.succ_le_succ_iff.mp h))
                (Nat.le_trans (List.length_filter_le _ _) (Nat.succ_le_succ_iff.mp h'))

/-- Unfolding equation for `deduplicate_leads`: the head cluster is the seed
with every later record that `_is_same_person` matches *against the seed*
folded in, and the rest is deduplicated recursively. -/
theorem deduplicateLeads_cons (ratioFn tokenSetRatioFn : String → String → Nat)
    (l : Lead) (rest : List Lead) :
    deduplicateLeads ratioFn tokenSetRatioFn (l :: rest) =
      (rest.filter (fun x => isSamePerson ratioFn tokenSetRatioFn SIMILARITY_THRESHOLD l x)).foldl
          mergeLeadData l ::
        deduplicateLeads ratioFn tokenSetRatioFn
          (rest.filter (fun x => ! isSamePerson ratioFn tokenSetRatioFn SIMILARITY_THRESHOLD l x)) := by
  unfold deduplicateLeads
  simp only [List.length_cons, dedupGo]
  congr 1
  exact dedupGo_fuel_eq ratioFn tokenSetRatioFn rest.length _ _
    (List.length_filter_le _ _) le_rfl

/-- A seed whose stripped lower-cased name is empty matches nothing. -/
theorem isSamePerson_left_empty (ratioFn tokenSetRatioFn : String → String → Nat)
    (threshold : Nat) (l1 l2 : Lead) (h : pyStrip (pyLower l1.name) = "") :
    isSamePerson ratioFn tokenSetRatioFn threshold l1 l2 = false := by
  simp [isSamePerson, h]

/-- A record whose stripped lower-cased name is empty is matched by
nothing. -/
theorem isSamePerson_right_empty (ratioFn tokenSetRatioFn : String → String → Nat)
    (threshold : Nat) (l1 l2 : Lead) (h : pyStrip (pyLower l2.name) = "") :
    isSamePerson ratioFn tokenSetRatioFn threshold l1 l2 = false := by
  simp [isSamePerson, h]

/-- A record with an empty name survives deduplication unchanged. -/
theorem emptyName_mem_dedupGo (ratioFn tokenSetRatioFn : String → String → Nat) :
    ∀ fuel (leads : List Lead) (l : Lead), leads.length ≤ fuel → l ∈ leads →
      pyStrip (pyLower l.name) = "" → l ∈ dedupGo ratioFn tokenSetRatioFn fuel leads := by
  intro fuel
  induction fuel with
  | zero =>
      intro leads l h hm _
      have : leads = [] := List.length_eq_zero.mp (Nat.le_zero.mp h)
      subst this
      cases hm
  | succ f ih =>
      intro leads l h hm he
      cases leads with
      | nil => cases hm
      | cons hd rest =>
          simp only [dedupGo]
          rcases List.mem_cons.mp hm with rfl | hm'
          · have hf : rest.filter
                (fun x => isSamePerson ratioFn tokenSetRatioFn SIMILARITY_THRESHOLD l x) = [] := by
              apply List.filter_eq_nil_iff.mpr
              intro x _
              simp [isSamePerson_left_empty ratioFn tokenSetRatioFn _ l x he]
            rw [hf]
            exact List.mem_cons_self _ _
          · apply List.mem_cons_of_mem
            apply ih _ l
              (Nat.le_trans (List.length_filter_le _ _) (Nat.succ_le_succ_iff.mp h))
              (List.mem_filter.mpr ⟨hm', by
                simp [isSamePerson_right_empty ratioFn tokenSetRatioFn _ hd l he]⟩)
              he

/-- Claim C6: cluster membership is decided by `_is_same_person` against the
cluster's original seed only — the head-cluster equation shows every later
record joins the first cluster exactly when it matches the seed `l` itself,
never the accumulating merged record; a record with an empty (after
lower-casing and stripping) name matches nothing in either direction and is
emitted as its own unchanged singleton; and concretely, under a similarity
function where `exLeadB` matches both the seed `exLeadA` and `exLeadC` while
`exLeadC` does not match the seed, `exLeadB` and `exLeadC` match each other
yet land in different clusters. -/
theorem deduplicateLeads_seed_matching :
    (∀ (ratioFn tokenSetRatioFn : String → String → Nat) (l : Lead) (rest : List Lead),
        deduplicateLeads ratioFn tokenSetRatioFn (l :: rest) =
          (rest.filter
              (fun x => isSamePerson ratioFn tokenSetRatioFn SIMILARITY_THRESHOLD l x)).foldl
              mergeLeadData l ::
            deduplicateLeads ratioFn tokenSetRatioFn
              (rest.filter
                (fun x => ! isSamePerson ratioFn tokenSetRatioFn SIMILARITY_THRESHOLD l x)))
  ∧ (∀ (ratioFn tokenSetRatioFn : String → String → Nat) (l1 l2 : Lead),
        pyStrip (pyLower l1.name) = "" →
        isSamePerson ratioFn tokenSetRatioFn SIMILARITY_THRESHOLD l1 l2 = false)
  ∧ (∀ (ratioFn tokenSetRatioFn : String → String → Nat) (l1 l2 : Lead),
        pyStrip (pyLower l2.name) = "" →
        isSamePerson ratioFn tokenSetRatioFn SIMILARITY_THRESHOLD l1 l2 = false)
  ∧ (∀ (ratioFn tokenSetRatioFn : String → String → Nat) (leads : List Lead) (l : Lead),
        l ∈ leads → pyStrip (pyLower l.name) = "" →
        l ∈ deduplicateLeads ratioFn tokenSetRatioFn leads)
  ∧ (isSamePerson exRatio exTok SIMILARITY_THRESHOLD exLeadB exLeadC = true
     ∧ isSamePerson exRatio exTok SIMILARITY_THRESHOLD exLeadA exLeadC = false
     ∧ deduplicateLeads exRatio exTok [exLeadA, exLeadB, exLeadC] =
         [mergeLeadData exLeadA exLeadB, exLeadC]) := by
  refine ⟨deduplicateLeads_cons,
    fun r t l1 l2 h => isSamePerson_left_empty r t SIMILARITY_THRESHOLD l1 l2 h,
    fun r t l1 l2 h => isSamePerson_right_empty r t SIMILARITY_THRESHOLD l1 l2 h,
    ?_, by decide, by decide, by decide⟩
  intro ratioFn tokenSetRatioFn leads l hm he
  exact emptyName_mem_dedupGo ratioFn tokenSetRatioFn leads.length leads l le_rfl hm he

/-- Witness for C6: a record with an empty name is emitted unchanged, and
the concrete three-record example evaluates as stated. -/
theorem deduplicateLeads_seed_matching_witness :
    exLeadNoName ∈ deduplicateLeads exRatio exTok [exLeadA, exLeadNoName] := by
  have h := deduplicateLeads_seed_matching
  exact h.2.2.2.1 exRatio exTok [exLeadA, exLeadNoName] exLeadNoName (by decide) (by decide)

/-- Membership after the expiry sweep: kept iff present and not marked. -/
theorem mem_cleanupExpiredEntries (now window : Nat) (c : Cache) (p : Nat × CacheEntry) :
    p ∈ (cleanupExpiredEntries now window c).searchQueries ↔
      p ∈ c.searchQueries ∧ tsExpired now window p.2.timestamp = false := by
  simp [cleanupExpiredEntries, List.mem_filter]

/-- Eviction only ever drops entries. -/
theorem mem_removeOldestEntries (c : Cache) (n : Nat) (p : Nat × CacheEntry)
    (h : p ∈ (removeOldestEntries c n).searchQueries) : p ∈ c.searchQueries := by
  simp only [removeOldestEntries] at h
  exact (List.perm_insertionSort newestFirst c.searchQueries).mem_iff.mp
    ((List.take_sublist _ _).subset h)

/-- Size enforcement only ever drops entries. -/
theorem mem_enforceSizeLimits (flag : Bool) (c : Cache) (p : Nat × CacheEntry)
    (h : p ∈ (enforceSizeLimits flag c).searchQueries) : p ∈ c.searchQueries := by
  simp only [enforceSizeLimits] at h
  split at h <;> split at h
  all_goals
    first
      | exact mem_removeOldestEntries _ _ _ (mem_removeOldestEntries _ _ _ h)
      | exact mem_removeOldestEntries _ _ _ h
      | exact h

/-- Eviction leaves at most `keepCount` entries. -/
theorem removeOldestEntries_length_le (c : Cache) (n : Nat) :
    (removeOldestEntries c n).searchQueries.length ≤ n := by
  simp only [removeOldestEntries, List.length_take]
  omega

/-- After size enforcement the store holds at most `MAX_CACHE_ENTRIES`
entries. -/
theorem enforceSizeLimits_length_le (flag : Bool) (c : Cache) :
    (enforceSizeLimits flag c).searchQueries.length ≤ MAX_CACHE_ENTRIES := by
  simp only [enforceSizeLimits]
  by_cases h : MAX_CACHE_ENTRIES <
      (if flag then removeOldestEntries c MAX_CACHE_ENTRIES else c).searchQueries.length
  · rw [if_pos h]
    exact removeOldestEntries_length_le _ _
  · rw [if_neg h]
    omega

/-- Dict assignment grows the store by at most one entry. -/
theorem setEntry_length_le (key : Nat) (e : CacheEntry) (l : List (Nat × CacheEntry)) :
    (setEntry key e l).length ≤ l.length + 1 := by
  induction l with
  | nil => simp [setEntry]
  | cons kv rest ih =>
      simp only [setEntry]
      split
      · simp
      · simp only [List.length_cons]
        omega

/-- Members after dict assignment: the new pair or an old member. -/
theorem mem_setEntry (key : Nat) (e : CacheEntry) (l : List (Nat × CacheEntry))
    (p : Nat × CacheEntry) (h : p ∈ setEntry key e l) : p = (key, e) ∨ p ∈ l := by
  induction l with
  | nil => simpa [setEntry] using h
  | cons kv rest ih =>
      simp only [setEntry] at h
      split at h
      · rcases List.mem_cons.mp h with h | h
        · exact Or.inl h
        · exact Or.inr (List.mem_cons_of_mem _ h)
      · rcases List.mem_cons.mp h with h | h
        · exact Or.inr (h ▸ List.mem_cons_self _ _)
        · rcases ih h with h | h
          · exact Or.inl h
          · exact Or.inr (List.mem_cons_of_mem _ h)

/-- A key absent from every pair is not found. -/
theorem lookupEntry_eq_none (key : Nat) (l : List (Nat × CacheEntry))
    (h : ∀ p ∈ l, p.1 ≠ key) : lookupEntry key l = none := by
  induction l with
  | nil => rfl
  | cons kv rest ih =>
      simp only [lookupEntry]
      rw [if_neg (h kv (List.mem_cons_self _ _))]
      exact ih (fun p hp => h p (List.mem_cons_of_mem _ hp))

/-- With unique keys, lookup finds exactly the member pair. -/
theorem lookupEntry_of_mem_nodup (key : Nat) (e : CacheEntry) (l : List (Nat × CacheEntry))
    (hmem : (key, e) ∈ l) (hnd : l.Pairwise (fun a b => a.1 ≠ b.1)) :
    lookupEntry key l = some e := by
  induction l with
  | nil => cases hmem
  | cons kv rest ih =>
      rcases List.mem_cons.mp hmem with heq | hmem'
      · rw [← heq]
        simp [lookupEntry]
      · have hne : kv.1 ≠ key := by
          have h1 := (List.pairwise_cons.mp hnd).1 (key, e) hmem'
          simpa using h1
        simp only [lookupEntry]
        rw [if_neg hne]
        exact ih hmem' (List.pairwise_cons.mp hnd).2

/-- Eviction to the full cap is a permutation when the store is already
within the cap. -/
theorem removeOldestEntries_perm_of_le (c : Cache)
    (h : c.searchQueries.length ≤ MAX_CACHE_ENTRIES) :
    (removeOldestEntries c MAX_CACHE_ENTRIES).searchQueries.Perm c.searchQueries := by
  simp only [removeOldestEntries]
  rw [List.take_of_length_le (by
    rw [(List.perm_insertionSort newestFirst c.searchQueries).length_eq]
    exact h)]
  exact List.perm_insertionSort _ _

/-- Size enforcement is a permutation when the store is already within the
entry cap (the byte-size branch can only reorder it). -/
theorem enforceSizeLimits_perm (flag : Bool) (c : Cache)
    (h : c.searchQueries.length ≤ MAX_CACHE_ENTRIES) :
    (enforceSizeLimits flag c).searchQueries.Perm c.searchQueries := by
  simp only [enforceSizeLimits]
  by_cases hf : flag = true
  · rw [if_pos hf]
    have h1 := removeOldestEntries_perm_of_le c h
    have h2 := removeOldestEntries_length_le c MAX_CACHE_ENTRIES
    have hcond : ¬ MAX_CACHE_ENTRIES <
        (removeOldestEntries c MAX_CACHE_ENTRIES).searchQueries.length := by omega
    rw [if_neg hcond]
    exact h1
  · rw [if_neg hf]
    have hcond : ¬ MAX_CACHE_ENTRIES < c.searchQueries.length := by omega
    rw [if_neg hcond]

/-- A single `put` leaves at most `MAX_CACHE_ENTRIES + 1` persisted entries:
limits are enforced during the load, before the new entry is inserted, and
the save does not re-enforce them. -/
theorem saveQueryResults_length_le (now window : Nat) (flag : Bool) (key : Nat)
    (results : List Lead) (c : Cache) :
    (saveQueryResults now window flag key results c).searchQueries.length ≤
      MAX_CACHE_ENTRIES + 1 := by
  simp only [saveQueryResults, saveCachePure, loadCachePure]
  have h1 := enforceSizeLimits_length_le flag (cleanupExpiredEntries now window c)
  have h2 := setEntry_length_le key
    { timestamp := CacheTS.valid now, results := results, count := results.length }
    (enforceSizeLimits flag (cleanupExpiredEntries now window c)).searchQueries
  omega

/-- Folding `put` calls never pushes the store above
`max (initial size) (MAX_CACHE_ENTRIES + 1)`. -/
theorem foldl_put_length_le (window : Nat) (ops : List PutOp) :
    ∀ c : Cache,
      ((ops.foldl
          (fun c op => saveQueryResults op.now window op.fileSizeExceeded op.key op.results c)
          c).searchQueries.length) ≤
        max c.searchQueries.length (MAX_CACHE_ENTRIES + 1) := by
  induction ops with
  | nil => intro c; simp
  | cons op rest ih =>
      intro c
      simp only [List.foldl_cons]
      have h1 := ih (saveQueryResults op.now window op.fileSizeExceeded op.key op.results c)
      have h2 := saveQueryResults_length_le op.now window op.fileSizeExceeded op.key op.results c
      omega

/-- Any sequence of `put` calls from the empty store leaves at most
`MAX_CACHE_ENTRIES + 1` persisted entries. -/
theorem runPuts_length_le (window : Nat) (ops : List PutOp) :
    (runPuts window ops).searchQueries.length ≤ MAX_CACHE_ENTRIES + 1 := by
  have h := foldl_put_length_le window ops emptyCache
  simp only [runPuts]
  simp only [emptyCache] at h
  simpa using h

/-- Eviction removes globally oldest entries first: every retained entry's
timestamp key is at least every dropped entry's. -/
theorem removeOldestEntries_keeps_newest (c : Cache) (n : Nat) (x y : Nat × CacheEntry)
    (hx : x ∈ (removeOldestEntries c n).searchQueries)
    (hy : y ∈ c.searchQueries)
    (hyn : y ∉ (removeOldestEntries c n).searchQueries) :
    tsSortKey y.2.timestamp ≤ tsSortKey x.2.timestamp := by
  simp only [removeOldestEntries] at hx hyn
  have hsorted : List.Sorted newestFirst (c.searchQueries.insertionSort newestFirst) :=
    List.sorted_insertionSort newestFirst c.searchQueries
  have hperm := List.perm_insertionSort newestFirst c.searchQueries
  have hy' : y ∈ c.searchQueries.insertionSort newestFirst := hperm.mem_iff.mpr hy
  have hsplit := List.take_append_drop n (c.searchQueries.insertionSort newestFirst)
  have hyd : y ∈ (c.searchQueries.insertionSort newestFirst).drop n := by
    have hy2 : y ∈ (c.searchQueries.insertionSort newestFirst).take n ++
        (c.searchQueries.insertionSort newestFirst).drop n := by
      rw [hsplit]; exact hy'
    rcases List.mem_append.mp hy2 with h | h
    · exact absurd h hyn
    · exact h
  have hpair : List.Pairwise newestFirst
      ((c.searchQueries.insertionSort newestFirst).take n ++
       (c.searchQueries.insertionSort newestFirst).drop n) := by
    rw [hsplit]; exact hsorted
  exact (List.pairwise_append.mp hpair).2.2 x hx y hyd

set_option maxRecDepth 100000 in
/-- Claim C2 (counterexample): 51 `put` calls with distinct keys leave 51
persisted entries — one more than `MAX_CACHE_ENTRIES = 50` — because limits
are enforced at load time only and the save after inserting the new entry
does not re-enforce them. -/
theorem putSequence_exceeds_max_entries :
    MAX_CACHE_ENTRIES < (runPuts CACHE_EXPIRY_DAYS c2Ops).searchQueries.length ∧
    (runPuts CACHE_EXPIRY_DAYS c2Ops).searchQueries.length = MAX_CACHE_ENTRIES + 1 := by
  constructor
  · decide
  · decide

/-- Claim C2 (amended): after any sequence of `put` calls the persisted
entry count is at most `MAX_CACHE_ENTRIES + 1`, and whenever eviction drops
entries it removes the globally oldest ones by timestamp — no retained
entry is older than a dropped one. -/
theorem putSequence_entry_bound_and_oldest_eviction :
    (∀ window ops, (runPuts window ops).searchQueries.length ≤ MAX_CACHE_ENTRIES + 1)
  ∧ (∀ (c : Cache) (n : Nat) (x y : Nat × CacheEntry),
        x ∈ (removeOldestEntries c n).searchQueries →
        y ∈ c.searchQueries →
        y ∉ (removeOldestEntries c n).searchQueries →
        tsSortKey y.2.timestamp ≤ tsSortKey x.2.timestamp) :=
  ⟨runPuts_length_le,
   fun c n x y hx hy hyn => removeOldestEntries_keeps_newest c n x y hx hy hyn⟩

/-- Witness for C2 (amended) at a concrete two-entry store trimmed to one
entry: the dropped entry (timestamp 1) is no newer than the kept one
(timestamp 5). -/
theorem putSequence_entry_bound_witness :
    tsSortKey (CacheTS.valid 1) ≤ tsSortKey (CacheTS.valid 5) := by
  have h := putSequence_entry_bound_and_oldest_eviction
  exact h.2 evStore 1
    (1, { timestamp := CacheTS.valid 5, results := [], count := 0 })
    (0, { timestamp := CacheTS.valid 1, results := [], count := 0 })
    (by decide) (by decide) (by decide)

/-- Claim C7 (counterexample): on a store whose only entry is expired
(timestamp 0, window 1, now 5), `get` returns `None` but the persisted store
is unchanged — the expired entry is still present, so neither the `get` nor
the load-time sweep removed it from the *persisted* store. -/
theorem getExpired_leaves_persisted_store :
    (getCachedResults 5 1 false 0 c7Store).1 = none
  ∧ (getCachedResults 5 1 false 0 c7Store).2 = c7Store
  ∧ (0, c7Entry) ∈ c7Store.searchQueries
  ∧ c7Entry.timestamp = CacheTS.valid 0 ∧ 0 + 1 < 5 := by
  refine ⟨by decide, by decide, by decide, by decide, by decide⟩

/-- Claim C7 (amended): an entry older than the expiry window is never
returned by `get`, and the `get` leaves the persisted store untouched — the
sweep acts on the in-memory loaded view only; the purge reaches the
persisted store when a subsequent save (here, the next `put`) persists the
swept document, after which no expired entry remains. -/
theorem expired_never_returned_and_purge_deferred :
    (∀ now window flag key (persisted : Cache),
        (∀ e : CacheEntry, (key, e) ∈ persisted.searchQueries →
            ∃ t, e.timestamp = CacheTS.valid t ∧ t + window < now) →
        (getCachedResults now window flag key persisted).1 = none ∧
        (getCachedResults now window flag key persisted).2 = persisted)
  ∧ (∀ now window flag key results (persisted : Cache) (k' : Nat) (e' : CacheEntry) (t : Nat),
        (k', e') ∈ (saveQueryResults now window flag key results persisted).searchQueries →
        e'.timestamp = CacheTS.valid t → ¬ (t + window < now)) := by
  constructor
  · intro now window flag key persisted hexp
    have hnone : lookupEntry key (loadCachePure now window flag persisted).searchQueries
        = none := by
      apply lookupEntry_eq_none
      intro p hp heq
      simp only [loadCachePure] at hp
      have hcl : p ∈ (cleanupExpiredEntries now window persisted).searchQueries :=
        mem_enforceSizeLimits flag _ p hp
      have hmm := (mem_cleanupExpiredEntries now window persisted p).mp hcl
      obtain ⟨t, hts, hlt⟩ := hexp p.2 (by
        have hpp : (p.1, p.2) ∈ persisted.searchQueries := by simpa using hmm.1
        rw [heq] at hpp
        exact hpp)
      have h2 := hmm.2
      rw [hts] at h2
      simp [tsExpired, hlt] at h2
    constructor <;> simp [getCachedResults, hnone]
  · intro now window flag key results persisted k' e' t hmem hts hlt
    simp only [saveQueryResults, saveCachePure] at hmem
    rcases mem_setEntry _ _ _ _ hmem with heq | hold
    · have he : e'.timestamp = CacheTS.valid now := by
        have h2 := congrArg (fun q : Nat × CacheEntry => q.2.timestamp) heq
        simpa using h2
      rw [he] at hts
      injection hts with hnow
      omega
    · simp only [loadCachePure] at hold
      have hcl := mem_enforceSizeLimits flag _ _ hold
      have hmm := (mem_cleanupExpiredEntries now window persisted _).mp hcl
      have h2 := hmm.2
      rw [hts] at h2
      simp [tsExpired] at h2
      omega

/-- Witness for C7 (amended) at the concrete expired store. -/
theorem expired_never_returned_witness :
    (getCachedResults 5 1 false 0 c7Store).1 = none
  ∧ (getCachedResults 5 1 false 0 c7Store).2 = c7Store := by
  have h := expired_never_returned_and_purge_deferred
  refine h.1 5 1 false 0 c7Store ?_
  intro e he
  have he' : e = c7Entry := by
    simpa [c7Store] using he
  exact ⟨0, by rw [he']; rfl, by omega⟩

/-- Claim C10: an entry whose timestamp field is the empty string is exempt
from expiry — it survives the load-time sweep unconditionally, `get` (on a
store with unique keys, within the entry cap so that size eviction cannot
interfere) returns its payload for any current time whatsoever, and any
entry the sweep purges necessarily has a non-empty timestamp. -/
theorem emptyTimestamp_exempt_from_expiry :
    (∀ now window (c : Cache) (key : Nat) (e : CacheEntry),
        (key, e) ∈ c.searchQueries → e.timestamp = CacheTS.empty →
        (key, e) ∈ (cleanupExpiredEntries now window c).searchQueries)
  ∧ (∀ now window flag (key : Nat) (c : Cache) (e : CacheEntry),
        (key, e) ∈ c.searchQueries →
        c.searchQueries.Pairwise (fun a b => a.1 ≠ b.1) →
        c.searchQueries.length ≤ MAX_CACHE_ENTRIES →
        e.timestamp = CacheTS.empty →
        (getCachedResults now window flag key c).1 = some e.results)
  ∧ (∀ now window (c : Cache) (key : Nat) (e : CacheEntry),
        (key, e) ∈ c.searchQueries →
        (key, e) ∉ (cleanupExpiredEntries now window c).searchQueries →
        e.timestamp ≠ CacheTS.empty) := by
  refine ⟨?_, ?_, ?_⟩
  · intro now window c key e hm ht
    exact (mem_cleanupExpiredEntries now window c (key, e)).mpr
      ⟨hm, by rw [ht]; rfl⟩
  · intro now window flag key c e hm hnd hlen ht
    have hcl : (key, e) ∈ (cleanupExpiredEntries now window c).searchQueries :=
      (mem_cleanupExpiredEntries now window c (key, e)).mpr ⟨hm, by rw [ht]; rfl⟩
    have hndc : (cleanupExpiredEntries now window c).searchQueries.Pairwise
        (fun a b => a.1 ≠ b.1) := by
      simp only [cleanupExpiredEntries]
      exact hnd.filter _
    have hlenc : (cleanupExpiredEntries now window c).searchQueries.length ≤
        MAX_CACHE_ENTRIES := by
      simp only [cleanupExpiredEntries]
      exact le_trans (List.length_filter_le _ _) hlen
    have hperm := enforceSizeLimits_perm flag _ hlenc
    have hmem2 : (key, e) ∈
        (enforceSizeLimits flag (cleanupExpiredEntries now window c)).searchQueries :=
      hperm.mem_iff.mpr hcl
    have hnd2 : (enforceSizeLimits flag
        (cleanupExpiredEntries now window c)).searchQueries.Pairwise
        (fun a b => a.1 ≠ b.1) :=
      (List.Perm.pairwise_iff (fun hxy => Ne.symm hxy) hperm).mpr hndc
    have hl := lookupEntry_of_mem_nodup key e _ hmem2 hnd2
    simp only [getCachedResults, loadCachePure, hl, ht]
  · intro now window c key e hm hnm hts
    exact hnm ((mem_cleanupExpiredEntries now window c (key, e)).mpr
      ⟨hm, by rw [hts]; rfl⟩)

/-- Witness for C10: the empty-timestamp entry's payload is returned at an
arbitrarily late current time, with the byte-size flag set. -/
theorem emptyTimestamp_exempt_witness :
    (getCachedResults 999999 1 true 7 c10Store).1 = some c10Entry.results := by
  have h := emptyTimestamp_exempt_from_expiry
  exact h.2.1 999999 1 true 7 c10Store c10Entry (by decide) (by decide) (by decide) (by decide)

end LeadFinder
